import Mathlib

/-!
Verification development for the `darebee-workout` repository.

The repository is a small Go web service.  The definitions below are a
shallow embedding of its pure core: the exercise-name normalizer
(`getVideoName`), the image-URL resolver (`getImageURL`), the two cache
backends' save/load functions, the request handler (`printVideos`) in both
of its deployment variants, and the serverless platform adapter's log
batching (`loggingContext.addEntry`) and kill protocol
(`startReportWorker` / `killInstance`).

Modelling conventions:
* Go strings are modelled by `String` (i.e. valid Unicode text); byte-level
  operations that the claims need (such as `len` of a payload) use
  `String.utf8ByteSize`.
* Go slices are modelled by `Option (List α)` (`GoSlice α`); `none` is the
  nil slice, which Go code distinguishes from an empty non-nil slice with
  `== nil` checks, `omitempty`, and JSON `null`.
* Fallible Go functions returning `(T, error)` are modelled with `Except`
  (or `Option` where the error value is irrelevant).
* `strings.ToLower` is modelled by mapping `Char.toLower`, which implements
  the ASCII case mapping; this agrees with Go on every ASCII string (all
  characters the regular expressions below can treat specially are ASCII).
-/

/-! ## Character classes of the Go regular expressions

`regexp` in Go (RE2) uses ASCII Perl classes: `\d = [0-9]`,
`\s = [\t\n\f\r ]`, `\w = [0-9A-Za-z_]`. -/

/-- The class `\d` of the Go regular expressions: an ASCII decimal digit. -/
def isGoDigit (c : Char) : Bool :=
  '0' ≤ c && c ≤ '9'

/-- The class `\s` of the Go regular expressions: `[\t\n\f\r ]`. -/
def isGoSpace (c : Char) : Bool :=
  c = '\t' || c = '\n' || c = '\x0c' || c = '\r' || c = ' '

/-- The class `\w` of the Go regular expressions: `[0-9A-Za-z_]`. -/
def isGoWord (c : Char) : Bool :=
  isGoDigit c || ('a' ≤ c && c ≤ 'z') || ('A' ≤ c && c ≤ 'Z') || c = '_'

/-- Models `strings.ToLower` restricted to the ASCII case mapping
(`Char.toLower` lowercases exactly `A`–`Z`).  It agrees with Go on every
ASCII string. -/
def goToLower (s : String) : String :=
  String.mk (s.toList.map Char.toLower)

/-- Boolean test that `needle` occurs as a contiguous subsequence of
`hay`; models `strings.Contains`. -/
def containsSeq (needle : List Char) : List Char → Bool
  | [] => needle.isEmpty
  | c :: rest => needle.isPrefixOf (c :: rest) || containsSeq needle rest

/-! ## The anchored match `^(\d+)\s+(.+)`

`regexp.MustCompile("^(\\d+)\\s+(.+)").FindStringSubmatch(line)` looks for
a leftmost match anchored at the start of the text.  With greedy
backtracking semantics this means: group 1 is the maximal digit run at the
very start of the line (it must be non-empty and be followed by a `\s`
character), `\s+` takes the maximal whitespace run that still leaves at
least one character for `.+`, and group 2 (`.+`) is the maximal following
run of non-newline characters (RE2's `.` does not match `\n`).  `regexSub2`
returns group 2, or `none` when the expression does not match. -/

/-- Given the characters strictly after the first char of the whitespace
run, returns the suffix that a backtracked `\s+` would leave for `.+`:
the part of `l` starting at its last non-`'\n'` character, truncated at
the next `'\n'`.  `none` when every character of `l` is `'\n'`. -/
def lastDotRun : List Char → Option (List Char)
  | [] => none
  | c :: rest =>
    match lastDotRun rest with
    | some r => some r
    | none => if c ≠ '\n' then some ((c :: rest).takeWhile (fun d => d ≠ '\n')) else none

/-- Group 2 of `^(\d+)\s+(.+)` applied to `cs`, or `none` if the regular
expression does not match. -/
def regexSub2 (cs : List Char) : Option (List Char) :=
  let d := cs.takeWhile isGoDigit
  if d.isEmpty then none
  else
    let rest := cs.drop d.length
    let w := rest.takeWhile isGoSpace
    if w.isEmpty then none
    else
      let tl := rest.drop w.length
      if tl.isEmpty then
        -- the line ends inside the whitespace run: `\s+` backtracks, but it
        -- must keep at least its first character
        lastDotRun (w.drop 1)
      else
        -- the character after the maximal whitespace run is not whitespace,
        -- in particular not '\n', so `.+` starts right there
        some (tl.takeWhile (fun d => d ≠ '\n'))

/-! ## The normalizer `getVideoName` (src/main.go lines 42-69) -/

/-- The static exception table `exceptions` of src/main.go. -/
def exceptions : List (String × String) :=
  [("alt-arm-leg-raises", "arm-leg-raises"), ("lunges-exercise", "forward-lunges")]

/-- Collapses every run of consecutive `'-'` into a single `'-'`; models
`regexp.MustCompile("-+").ReplaceAllString(str, "-")`.  The `Bool` records
whether the previously emitted character was a hyphen. -/
def collapseDashAux : Bool → List Char → List Char
  | _, [] => []
  | prevDash, c :: rest =>
    if c = '-' then
      if prevDash then collapseDashAux true rest
      else '-' :: collapseDashAux true rest
    else c :: collapseDashAux false rest

/-- Models `getVideoName` of src/main.go: lower-case the line, match
`^(\d+)\s+(.+)`, reject rest-interval lines containing `"between"`,
replace non-word characters of group 2 with hyphens, collapse hyphen runs,
suffix single words with `"-exercise"`, and apply the exception table
(`if exceptions[str] != ""`). -/
def getVideoName (line : String) : String :=
  let lower := goToLower line
  match regexSub2 lower.toList with
  | none => ""
  | some g2 =>
    if containsSeq ("between".toList) lower.toList then ""
    else
      let s1 := g2.map (fun c => if isGoWord c then c else '-')
      let s2 := collapseDashAux false s1
      let s3 := if s2.contains '-' then s2 else s2 ++ ("-exercise".toList)
      let str := String.mk s3
      let exc := ((exceptions.lookup str).getD "")
      if exc ≠ "" then exc else str

example : getVideoName "20 knee strikes" = "knee-strikes" := by decide
example : getVideoName "20  knee  strikes" = "knee-strikes" := by decide
example : getVideoName "20 jab + jab + cross" = "jab-jab-cross" := by decide
example : getVideoName "Foundation" = "" := by decide
example : getVideoName "Day 3 Fighter" = "" := by decide
example : getVideoName "Level II 5 sets" = "" := by decide
example : getVideoName "o darebee.com" = "" := by decide
example : getVideoName "2 minutes rest between sets" = "" := by decide
example : getVideoName "20 Knee Strikes" = "knee-strikes" := by decide
example : getVideoName "20 OVerhead PunchES" = "overhead-punches" := by decide
example : getVideoName "2 minutes REST beTweeN sets" = "" := by decide
example : getVideoName "10 bridges" = "bridges-exercise" := by decide
example : getVideoName "20 skiers" = "skiers-exercise" := by decide
example : getVideoName "10 alt arm / leg raises" = "arm-leg-raises" := by decide
example : getVideoName "20 lunges" = "forward-lunges" := by decide

/-! ## Supporting lemmas about the normalizer -/

lemma mk_ne_empty_of_ne_nil {l : List Char} (h : l ≠ []) : String.mk l ≠ "" := by
  intro hc
  apply h
  have hd : (String.mk l).data = String.data "" := by rw [hc]
  simpa using hd

lemma lastDotRun_ne_nil : ∀ (l r : List Char), lastDotRun l = some r → r ≠ [] := by
  intro l
  induction l with
  | nil => intro r h; simp [lastDotRun] at h
  | cons c rest ih =>
    intro r h
    simp only [lastDotRun] at h
    cases hr : lastDotRun rest with
    | some r2 =>
      rw [hr] at h
      have h2 : some r2 = some r := h
      cases h2
      exact ih _ hr
    | none =>
      rw [hr] at h
      by_cases hc : c = '\n'
      · simp [hc] at h
      · simp only [hc, ne_eq, not_false_iff, if_true] at h
        rw [List.takeWhile_cons, if_pos (by simp [hc])] at h
        have h2 := Option.some.inj h
        intro hnil
        rw [← h2] at hnil
        simp at hnil

lemma drop_takeWhile_len (p : Char → Bool) :
    ∀ (l : List Char), l.drop (l.takeWhile p).length = l.dropWhile p := by
  intro l
  induction l with
  | nil => simp
  | cons c rest ih =>
    by_cases hc : p c
    · simp [List.takeWhile_cons, List.dropWhile_cons, hc, ih]
    · simp [List.takeWhile_cons, List.dropWhile_cons, hc]

lemma dropWhile_head_false (p : Char → Bool) :
    ∀ (l : List Char) (c : Char) (t : List Char), l.dropWhile p = c :: t → p c = false := by
  intro l
  induction l with
  | nil => intro c t h; simp at h
  | cons a rest ih =>
    intro c t h
    by_cases ha : p a
    · rw [List.dropWhile_cons, if_pos (by simp [ha])] at h
      exact ih c t h
    · rw [List.dropWhile_cons, if_neg (by simp [ha])] at h
      cases h
      simp [ha]

lemma regexSub2_some_ne_nil (cs g : List Char) (h : regexSub2 cs = some g) : g ≠ [] := by
  simp only [regexSub2] at h
  by_cases hd : (cs.takeWhile isGoDigit).isEmpty
  · simp [hd] at h
  · simp only [hd, if_false, Bool.false_eq_true] at h
    set rest := cs.drop (cs.takeWhile isGoDigit).length with hrest
    by_cases hw : (rest.takeWhile isGoSpace).isEmpty
    · simp [hw] at h
    · simp only [hw, if_false, Bool.false_eq_true] at h
      by_cases ht : (rest.drop (rest.takeWhile isGoSpace).length).isEmpty
      · simp only [ht, if_true] at h
        exact lastDotRun_ne_nil _ _ h
      · simp only [ht, if_false, Bool.false_eq_true, Option.some.injEq] at h
        rw [drop_takeWhile_len] at h ht
        cases htl : rest.dropWhile isGoSpace with
        | nil => rw [htl] at ht; simp at ht
        | cons c t =>
          have hc : isGoSpace c = false := dropWhile_head_false _ _ _ _ htl
          have hcn : c ≠ '\n' := by
            intro he
            rw [he] at hc
            simp [isGoSpace] at hc
          rw [htl, List.takeWhile_cons, if_pos (by simp [hcn])] at h
          intro hnil
          rw [← h] at hnil
          simp at hnil

lemma collapseDashAux_false_ne_nil (l : List Char) (h : l ≠ []) :
    collapseDashAux false l ≠ [] := by
  cases l with
  | nil => exact absurd rfl h
  | cons c rest =>
    simp only [collapseDashAux]
    by_cases hc : c = '-' <;> simp [hc]

lemma slug_pipeline_ne_empty (g2 : List Char) (hg : g2 ≠ []) :
    (let s1 := g2.map (fun c => if isGoWord c then c else '-')
     let s2 := collapseDashAux false s1
     let s3 := if s2.contains '-' then s2 else s2 ++ ("-exercise".toList)
     let str := String.mk s3
     let exc := ((exceptions.lookup str).getD "")
     if exc ≠ "" then exc else str) ≠ "" := by
  have hs1 : g2.map (fun c => if isGoWord c then c else '-') ≠ [] := by
    simpa using hg
  have hs2 : collapseDashAux false (g2.map (fun c => if isGoWord c then c else '-')) ≠ [] :=
    collapseDashAux_false_ne_nil _ hs1
  simp only
  set s2 := collapseDashAux false (g2.map (fun c => if isGoWord c then c else '-')) with hs2def
  have hs3 : (if s2.contains '-' then s2 else s2 ++ ("-exercise".toList)) ≠ [] := by
    split
    · exact hs2
    · simp [List.append_eq_nil, hs2]
  set s3 := (if s2.contains '-' then s2 else s2 ++ ("-exercise".toList)) with hs3def
  split
  · next hexc => exact hexc
  · next => exact mk_ne_empty_of_ne_nil hs3

/-! ## Spec-side reformulations used by the normalizer claims -/

/-- The line shape asserted by claim C1: optional leading whitespace, one
or more digits, one or more whitespace characters, then a non-empty
remainder. -/
def claimedShapeB (s : String) : Bool :=
  let afterWs := s.toList.dropWhile isGoSpace
  let d := afterWs.takeWhile isGoDigit
  let rest := afterWs.drop d.length
  !d.isEmpty &&
    (match rest with
     | [] => false
     | c :: t => isGoSpace c && !t.isEmpty)

/-- Whether the first character of the line is an ASCII digit ("begins
with a digit count"). -/
def headIsDigit (s : String) : Bool :=
  match s.toList with
  | [] => false
  | c :: _ => isGoDigit c

/-- The exception table of the spec, applied as an explicit final
substitution step: `alt-arm-leg-raises → arm-leg-raises` and
`lunges-exercise → forward-lunges`, all other slugs unchanged. -/
def exceptionStep (s : String) : String :=
  if s = "alt-arm-leg-raises" then "arm-leg-raises"
  else if s = "lunges-exercise" then "forward-lunges"
  else s

lemma lookup_getD_eq_exceptionStep (s : String) :
    (if ((exceptions.lookup s).getD "") ≠ "" then ((exceptions.lookup s).getD "") else s)
      = exceptionStep s := by
  by_cases h1 : s = "alt-arm-leg-raises"
  · simp [exceptions, exceptionStep, List.lookup, h1]
  · have e1 : (s == "alt-arm-leg-raises") = false := beq_eq_false_iff_ne.mpr h1
    by_cases h2 : s = "lunges-exercise"
    · simp [exceptions, exceptionStep, List.lookup, e1, h1, h2]
    · have e2 : (s == "lunges-exercise") = false := beq_eq_false_iff_ne.mpr h2
      simp [exceptions, exceptionStep, List.lookup, e1, e2, h1, h2]

/-! ## Claim theorems about the normalizer -/

/-- C1, counterexample: the line `" 1 a"` (one leading space) matches the
claim's shape — optional leading whitespace, digits, whitespace, non-empty
remainder — and does not contain `"between"`, yet `getVideoName` yields
`""` ("no match"): Go's pattern `^(\d+)\s+(.+)` is anchored at the first
character and permits no leading whitespace. -/
theorem getVideoName_claimed_shape_counterexample :
    claimedShapeB (goToLower " 1 a") = true ∧
    containsSeq ("between".toList) (goToLower " 1 a").toList = false ∧
    getVideoName " 1 a" = "" := by
  refine ⟨by decide, by decide, by decide⟩

/-- C1 (amended): `getVideoName` treats a line as an exercise line (returns
a non-empty slug) exactly when its lower-casing matches `^(\d+)\s+(.+)` —
one-or-more digits starting at the very first character, with no leading
whitespace permitted, then one-or-more whitespace characters, then a
remainder with at least one non-newline character — and does not contain
the substring `"between"`; every line whose lower-casing does not match the
pattern yields `""` ("no match"). -/
theorem getVideoName_match_iff (line : String) :
    (getVideoName line ≠ "" ↔
      ((regexSub2 (goToLower line).toList).isSome = true ∧
        containsSeq ("between".toList) (goToLower line).toList = false)) ∧
    ((regexSub2 (goToLower line).toList).isSome = false → getVideoName line = "") := by
  constructor
  · cases h : regexSub2 (goToLower line).toList with
    | none =>
      simp only [getVideoName, h]
      simp
    | some g2 =>
      cases hb : containsSeq ("between".toList) (goToLower line).toList with
      | true =>
        simp only [getVideoName, h, hb]
        simp
      | false =>
        simp only [getVideoName, h, hb]
        constructor
        · intro _
          exact ⟨by simp, by simp⟩
        · intro _
          simpa using slug_pipeline_ne_empty g2 (regexSub2_some_ne_nil _ _ h)
  · intro h
    cases hm : regexSub2 (goToLower line).toList with
    | none => simp only [getVideoName, hm]
    | some g2 => rw [hm] at h; simp at h

/-- C1 witness: the header line `"Foundation"` does not match the pattern
and is mapped to `""`. -/
theorem getVideoName_match_iff_witness : getVideoName "Foundation" = "" :=
  (getVideoName_match_iff "Foundation").2 (by decide)

/-- C6: a line that begins with a digit count and whose lower-casing
contains `"between"` anywhere is mapped to `""` ("no match"), regardless of
the rest of the line. -/
theorem getVideoName_between_rejected (line : String)
    (_hd : headIsDigit line = true)
    (hb : containsSeq ("between".toList) (goToLower line).toList = true) :
    getVideoName line = "" := by
  cases h : regexSub2 (goToLower line).toList with
  | none => simp only [getVideoName, h]
  | some g2 => simp only [getVideoName, h, hb, if_true]

/-- C6 witness: the mixed-case rest-interval line from the test suite. -/
theorem getVideoName_between_rejected_witness :
    getVideoName "2 minutes REST beTweeN sets" = "" :=
  getVideoName_between_rejected "2 minutes REST beTweeN sets" (by decide) (by decide)

/-- C5: on every accepted exercise line the normalizer appends
`"-exercise"` to the slug exactly when the slug (after hyphen replacement
and hyphen-run collapsing) contains no hyphen, and then applies the
two-entry exception table as the final step; in particular
`getVideoName "10 bridges" = "bridges-exercise"`,
`getVideoName "10 alt arm / leg raises" = "arm-leg-raises"` and
`getVideoName "20 lunges" = "forward-lunges"`. -/
theorem getVideoName_suffix_and_exceptions :
    (∀ (line : String) (g2 : List Char),
        regexSub2 (goToLower line).toList = some g2 →
        containsSeq ("between".toList) (goToLower line).toList = false →
        getVideoName line =
          exceptionStep
            (let s2 := collapseDashAux false (g2.map (fun c => if isGoWord c then c else '-'))
             if s2.contains '-' then String.mk s2
             else String.mk (s2 ++ ("-exercise".toList)))) ∧
    getVideoName "10 bridges" = "bridges-exercise" ∧
    getVideoName "10 alt arm / leg raises" = "arm-leg-raises" ∧
    getVideoName "20 lunges" = "forward-lunges" := by
  refine ⟨?_, by decide, by decide, by decide⟩
  intro line g2 h hb
  simp only [getVideoName, h, hb, Bool.false_eq_true, if_false]
  rw [← lookup_getD_eq_exceptionStep]
  rw [apply_ite String.mk]

/-- C5 witness: the general part applied to the single-word line
`"10 bridges"`. -/
theorem getVideoName_suffix_and_exceptions_witness :
    getVideoName "10 bridges" =
      exceptionStep
        (let s2 := collapseDashAux false
            (("bridges".toList).map (fun c => if isGoWord c then c else '-'))
         if s2.contains '-' then String.mk s2
         else String.mk (s2 ++ ("-exercise".toList))) :=
  getVideoName_suffix_and_exceptions.1 "10 bridges" ("bridges".toList) (by decide) (by decide)

/-! ## Decimal rendering (`fmt` `%d` / `%02d`) and `strconv.Atoi` -/

/-- The decimal digit character of `d % 10`. -/
def digitChar10 (d : Nat) : Char :=
  Char.ofNat (48 + d % 10)

/-- Fuel-indexed accumulator loop producing the decimal digits of `n` in
front of `acc`.  The fuel is only a termination device; `natDigits` always
supplies enough. -/
def natDigitsAux : Nat → Nat → List Char → List Char
  | 0, _, acc => acc
  | fuel + 1, n, acc =>
    if n < 10 then digitChar10 n :: acc
    else natDigitsAux fuel (n / 10) (digitChar10 n :: acc)

/-- The decimal digits of `n`, most significant first. -/
def natDigits (n : Nat) : List Char :=
  natDigitsAux (n + 1) n []

/-- Decimal rendering of a natural number. -/
def natStr (n : Nat) : String :=
  String.mk (natDigits n)

/-- Go `fmt` `%d` rendering of an integer. -/
def intStr (n : Int) : String :=
  if n < 0 then "-" ++ natStr (-n).toNat else natStr n.toNat

/-- Go `fmt` `%02d`: the decimal rendering left-padded with zeros to a
minimum total width of 2 (for width 2 the sign, when present, already
fills the field, so no padding is ever inserted after a sign). -/
def dayField (n : Int) : String :=
  let base := intStr n
  if base.length < 2 then String.mk (List.replicate (2 - base.length) '0') ++ base
  else base

/-- The day number "zero-padded to at least two digits" as the spec words
it: a single zero is prefixed exactly for the one-digit non-negative
numbers, every other integer is rendered as-is. -/
def zeroPadMin2 (n : Int) : String :=
  if 0 ≤ n ∧ n ≤ 9 then "0" ++ natStr n.toNat else intStr n

/-- Error kinds of `strconv.Atoi`. -/
inductive AtoiErr where
  | notNumeric : AtoiErr
  | outOfRange : AtoiErr
deriving DecidableEq

deriving instance DecidableEq for Except

/-- Decimal value of a digit list. -/
def decVal (l : List Char) : Nat :=
  l.foldl (fun a c => 10 * a + (c.toNat - 48)) 0

/-- Models `strconv.Atoi`: an optional single leading `+` or `-`, then one
or more ASCII digits and nothing else; 64-bit `int` range, out-of-range
values are rejected with a range error. -/
def goAtoi (s : String) : Except AtoiErr Int :=
  let cs := s.toList
  let p : Bool × List Char :=
    match cs with
    | '+' :: t => (false, t)
    | '-' :: t => (true, t)
    | _ => (false, cs)
  if p.2.isEmpty || !(p.2.all isGoDigit) then .error .notNumeric
  else
    let v : Int := if p.1 then -(decVal p.2 : Int) else (decVal p.2 : Int)
    if v < -(2 ^ 63) ∨ 2 ^ 63 - 1 < v then .error .outOfRange else .ok v

/-- Models `getImageURL` of src/main.go lines 71-78: lower-case the
workout, parse the day with `strconv.Atoi` (propagating its error), and
format `https://darebee.com/images/programs/%s/web/day%02d.jpg`. -/
def getImageURL (workout day : String) : Except AtoiErr String :=
  match goAtoi day with
  | .error e => .error e
  | .ok n =>
    .ok ("https://darebee.com/images/programs/" ++ goToLower workout ++ "/web/day"
      ++ dayField n ++ ".jpg")

example : goAtoi "23" = .ok 23 := by decide
example : goAtoi "004" = .ok 4 := by decide
example : goAtoi "-5" = .ok (-5) := by decide
example : goAtoi "abc" = .error .notNumeric := by decide
example : goAtoi "" = .error .notNumeric := by decide
example : goAtoi "12a" = .error .notNumeric := by decide
example : goAtoi "99999999999999999999" = .error .outOfRange := by decide
example : getImageURL "foundation" "23"
    = .ok "https://darebee.com/images/programs/foundation/web/day23.jpg" := by decide
example : getImageURL "Foundation" "3"
    = .ok "https://darebee.com/images/programs/foundation/web/day03.jpg" := by decide
example : getImageURL "foundation" "-5"
    = .ok "https://darebee.com/images/programs/foundation/web/day-5.jpg" := by decide

/-! ## Length facts about the decimal rendering -/

lemma natDigitsAux_length :
    ∀ (fuel : Nat), 1 ≤ fuel → ∀ (n : Nat) (acc : List Char), n < 10 ^ fuel →
      acc.length + 1 ≤ (natDigitsAux fuel n acc).length := by
  intro fuel
  induction fuel with
  | zero => intro h; omega
  | succ f ih =>
    intro _ n acc hn
    rw [natDigitsAux]
    split
    · simp
    · next h10 =>
      have hf : 1 ≤ f := by
        by_contra hf0
        have : f = 0 := by omega
        subst this
        simp at hn
        omega
      have hdiv : n / 10 < 10 ^ f := by
        rw [Nat.div_lt_iff_lt_mul (by norm_num)]
        calc n < 10 ^ (f + 1) := hn
          _ = 10 ^ f * 10 := by ring
      have hrec := ih hf (n / 10) (digitChar10 n :: acc) hdiv
      simp only [List.length_cons] at hrec ⊢
      omega

lemma lt_ten_pow_succ (n : Nat) : n < 10 ^ (n + 1) :=
  lt_of_lt_of_le (Nat.lt_pow_self (by norm_num) n)
    (Nat.pow_le_pow_right (by norm_num) (Nat.le_succ n))

lemma natDigits_length_pos (n : Nat) : 1 ≤ (natDigits n).length := by
  have := natDigitsAux_length (n + 1) (by omega) n [] (lt_ten_pow_succ n)
  simpa [natDigits] using this

lemma natDigits_single (n : Nat) (h : n < 10) : natDigits n = [digitChar10 n] := by
  rw [natDigits, natDigitsAux, if_pos h]

lemma natDigits_length_ge_two (n : Nat) (h : 10 ≤ n) : 2 ≤ (natDigits n).length := by
  rw [natDigits, natDigitsAux, if_neg (by omega)]
  have hdiv : n / 10 < 10 ^ n := lt_of_le_of_lt (Nat.div_le_self n 10)
    (Nat.lt_pow_self (by norm_num) n)
  have := natDigitsAux_length n (by omega) (n / 10) [digitChar10 n] hdiv
  simpa using this

lemma length_mk (l : List Char) : (String.mk l).length = l.length := rfl

lemma natStr_length (n : Nat) : (natStr n).length = (natDigits n).length := rfl

lemma dayField_eq_zeroPadMin2 (n : Int) : dayField n = zeroPadMin2 n := by
  by_cases hneg : n < 0
  · have hbase : (intStr n).length = 1 + (natDigits (-n).toNat).length := by
      rw [intStr, if_pos hneg, String.length_append]
      rfl
    have hp := natDigits_length_pos (-n).toNat
    simp only [dayField, zeroPadMin2]
    rw [if_neg (show ¬ (intStr n).length < 2 by omega),
      if_neg (show ¬ (0 ≤ n ∧ n ≤ 9) by omega)]
  · by_cases hsmall : n ≤ 9
    · have hlt : n.toNat < 10 := by omega
      have hbase : (intStr n).length = 1 := by
        rw [intStr, if_neg hneg, natStr_length, natDigits_single n.toNat hlt]
        rfl
      simp only [dayField, zeroPadMin2]
      rw [if_pos (show (intStr n).length < 2 by omega),
        if_pos (show 0 ≤ n ∧ n ≤ 9 from ⟨by omega, hsmall⟩), hbase]
      rw [intStr, if_neg hneg]
      rfl
    · have hge : 10 ≤ n.toNat := by omega
      have h2 : ¬ (intStr n).length < 2 := by
        have := natDigits_length_ge_two n.toNat hge
        rw [intStr, if_neg hneg, natStr_length]
        omega
      simp only [dayField, zeroPadMin2]
      rw [if_neg h2, if_neg (show ¬ (0 ≤ n ∧ n ≤ 9) by omega)]

lemma dayField_length (n : Int) : 2 ≤ (dayField n).length := by
  rw [dayField]
  split
  · next hlt =>
    rw [String.length_append, length_mk, List.length_replicate]
    omega
  · next hge => omega

lemma zeroPadMin2_length (n : Int) : 2 ≤ (zeroPadMin2 n).length := by
  rw [← dayField_eq_zeroPadMin2]
  exact dayField_length n

/-! ## Claim theorems about the URL resolver -/

/-- C3: whenever the day string parses as an integer `n` (including
negative ones), `getImageURL` succeeds and returns exactly
`https://darebee.com/images/programs/<program>/web/day<NN>.jpg`, where
`<NN>` is the day number zero-padded to a minimum width of two and the
program is the lower-cased workout; `<NN>` is always at least two
characters wide. -/
theorem getImageURL_form (workout day : String) (n : Int) (h : goAtoi day = .ok n) :
    getImageURL workout day
      = .ok ("https://darebee.com/images/programs/" ++ goToLower workout ++ "/web/day"
          ++ zeroPadMin2 n ++ ".jpg")
    ∧ 2 ≤ (zeroPadMin2 n).length := by
  refine ⟨?_, zeroPadMin2_length n⟩
  simp only [getImageURL, h, dayField_eq_zeroPadMin2]

/-- C3 witness: the negative day string `"-5"` parses and still produces a
URL of the stated shape (`day-5.jpg`, two characters wide). -/
theorem getImageURL_form_witness :
    getImageURL "Foundation" "-5"
      = .ok ("https://darebee.com/images/programs/" ++ goToLower "Foundation" ++ "/web/day"
          ++ zeroPadMin2 (-5) ++ ".jpg")
    ∧ 2 ≤ (zeroPadMin2 (-5)).length :=
  getImageURL_form "Foundation" "-5" (-5) (by decide)

/-- C4: `getImageURL` lower-cases the program, zero-pads the parsed day to
width 2 while preserving wider days (day 100 renders as `day100`), accepts
leading-zero day strings, and fails with the parse error for every day
string that `strconv.Atoi` rejects (e.g. `"abc"`). -/
theorem getImageURL_examples :
    getImageURL "foundation" "23"
      = .ok "https://darebee.com/images/programs/foundation/web/day23.jpg" ∧
    getImageURL "foundation" "3"
      = .ok "https://darebee.com/images/programs/foundation/web/day03.jpg" ∧
    getImageURL "Foundation" "3"
      = .ok "https://darebee.com/images/programs/foundation/web/day03.jpg" ∧
    getImageURL "foundation" "004"
      = .ok "https://darebee.com/images/programs/foundation/web/day04.jpg" ∧
    getImageURL "foundation" "100"
      = .ok "https://darebee.com/images/programs/foundation/web/day100.jpg" ∧
    (∀ (workout day : String) (e : AtoiErr), goAtoi day = .error e →
      getImageURL workout day = .error e) := by
  refine ⟨by decide, by decide, by decide, by decide, by decide, ?_⟩
  intro w d e h
  simp only [getImageURL, h]

/-- C4 witness: the non-numeric day string `"abc"` makes `getImageURL`
fail with the parse error. -/
theorem getImageURL_examples_witness :
    getImageURL "foundation" "abc" = .error AtoiErr.notNumeric :=
  getImageURL_examples.2.2.2.2.2 "foundation" "abc" AtoiErr.notNumeric (by decide)

/-! ## The Exercise record and Go slices -/

/-- The `exercise` struct of the caching variants (exported fields
`Name`, `EmbedURL`). -/
structure Exercise where
  Name : String
  EmbedURL : String
deriving DecidableEq

/-- A Go slice: `none` is the nil slice, `some l` a non-nil slice with
elements `l`.  Go code distinguishes the two with `== nil`, `omitempty`
and JSON `null`. -/
abbrev GoSlice (α : Type) := Option (List α)

/-- Go `len` of a slice (`len(nil) = 0`). -/
def goLen {α : Type} (s : GoSlice α) : Nat :=
  (s.getD []).length

/-! ## `encoding/json` for `[]exercise`

`json.Marshal` output grammar for this type: `null` for the nil slice,
`[]` for an empty non-nil slice, otherwise
`[{"Name":<string>,"EmbedURL":<string>},...]`.  Strings are quoted with
Go's encoder escapes: `\"`, `\\`, `\n`, `\r`, `\t`, `\u00XX` for the other
control characters, `<`/`>`/`&` for the HTML characters
`<`/`>`/`&`, and ` `/` ` for the line/paragraph separators;
every other character is emitted literally.  The decoder below parses
exactly the grammar the encoder emits (Go's `json.Unmarshal` accepts a
superset — whitespace, any key order, case-insensitive keys — which
values written by this program never exercise). -/

/-- Lowercase hexadecimal digit of `n % 16`. -/
def hexDigitChar (n : Nat) : Char :=
  Char.ofNat (if n % 16 < 10 then 48 + n % 16 else 87 + n % 16)

/-- The six-character escape `\uXXXX` of a code point below `0x10000`. -/
def uEsc (n : Nat) : List Char :=
  ['\\', 'u', hexDigitChar (n / 4096), hexDigitChar (n / 256), hexDigitChar (n / 16),
    hexDigitChar n]

/-- Go's JSON encoding of one character inside a quoted string. -/
def jsonEscChar (c : Char) : List Char :=
  if c = '\"' then ['\\', '\"']
  else if c = '\\' then ['\\', '\\']
  else if c = '\n' then ['\\', 'n']
  else if c = '\r' then ['\\', 'r']
  else if c = '\t' then ['\\', 't']
  else if c.toNat < 32 ∨ c = '<' ∨ c = '>' ∨ c = '&' ∨ c.toNat = 8232 ∨ c.toNat = 8233 then
    uEsc c.toNat
  else [c]

/-- JSON encoding of the characters of a string body. -/
def encodeBody : List Char → List Char
  | [] => []
  | c :: cs => jsonEscChar c ++ encodeBody cs

/-- A quoted JSON string followed by the continuation `k`. -/
def encStr (s : String) (k : List Char) : List Char :=
  '\"' :: (encodeBody s.toList ++ '\"' :: k)

/-- The JSON object `{"Name":…,"EmbedURL":…}` of one exercise, followed by
the continuation `k`. -/
def encExercise (e : Exercise) (k : List Char) : List Char :=
  '\x7b' :: encStr "Name" (':' :: encStr e.Name (',' :: encStr "EmbedURL"
    (':' :: encStr e.EmbedURL ('\x7d' :: k))))

/-- Comma-separated JSON objects of a non-empty exercise list, followed by
the continuation `k`. -/
def encItems : List Exercise → List Char → List Char
  | [], k => k
  | [e], k => encExercise e k
  | e :: e2 :: es, k => encExercise e (',' :: encItems (e2 :: es) k)

/-- `json.Marshal` of a `[]exercise` value. -/
def marshalExercises : GoSlice Exercise → String
  | none => "null"
  | some [] => "[]"
  | some l => String.mk ('[' :: encItems l [']'])

/-- Value of one hexadecimal digit character. -/
def hexVal (c : Char) : Option Nat :=
  if '0' ≤ c ∧ c ≤ '9' then some (c.toNat - 48)
  else if 'a' ≤ c ∧ c ≤ 'f' then some (c.toNat - 87)
  else if 'A' ≤ c ∧ c ≤ 'F' then some (c.toNat - 55)
  else none

/-- Parses the body of a JSON string (the opening quote already consumed)
up to and including the closing quote; returns the decoded characters and
the rest of the input. -/
def parseStrBody : List Char → Option (List Char × List Char)
  | [] => none
  | c :: rest =>
    if c = '\"' then some ([], rest)
    else if c = '\\' then
      match rest with
      | [] => none
      | e :: r2 =>
        if e = '\"' then (parseStrBody r2).map (fun p => ('\"' :: p.1, p.2))
        else if e = '\\' then (parseStrBody r2).map (fun p => ('\\' :: p.1, p.2))
        else if e = '/' then (parseStrBody r2).map (fun p => ('/' :: p.1, p.2))
        else if e = 'n' then (parseStrBody r2).map (fun p => ('\n' :: p.1, p.2))
        else if e = 'r' then (parseStrBody r2).map (fun p => ('\r' :: p.1, p.2))
        else if e = 't' then (parseStrBody r2).map (fun p => ('\t' :: p.1, p.2))
        else if e = 'b' then (parseStrBody r2).map (fun p => ('\x08' :: p.1, p.2))
        else if e = 'f' then (parseStrBody r2).map (fun p => ('\x0c' :: p.1, p.2))
        else if e = 'u' then
          match r2 with
          | h1 :: h2 :: h3 :: h4 :: r3 =>
            match hexVal h1, hexVal h2, hexVal h3, hexVal h4 with
            | some a, some b, some c2, some d =>
              (parseStrBody r3).map
                (fun p => (Char.ofNat (4096 * a + 256 * b + 16 * c2 + d) :: p.1, p.2))
            | _, _, _, _ => none
          | _ => none
        else none
    else (parseStrBody rest).map (fun p => (c :: p.1, p.2))

/-- Parses a full JSON string including its opening quote. -/
def parseJString : List Char → Option (List Char × List Char)
  | '\"' :: r => parseStrBody r
  | _ => none

/-- Parses one `{"Name":…,"EmbedURL":…}` object. -/
def parseExercise (l : List Char) : Option (Exercise × List Char) :=
  match l with
  | '\x7b' :: r0 =>
    match parseJString r0 with
    | some (k1, r1) =>
      if k1 = "Name".toList then
        match r1 with
        | ':' :: r2 =>
          match parseJString r2 with
          | some (v1, r3) =>
            match r3 with
            | ',' :: r4 =>
              match parseJString r4 with
              | some (k2, r5) =>
                if k2 = "EmbedURL".toList then
                  match r5 with
                  | ':' :: r6 =>
                    match parseJString r6 with
                    | some (v2, r7) =>
                      match r7 with
                      | '\x7d' :: r8 =>
                        some ({ Name := String.mk v1, EmbedURL := String.mk v2 }, r8)
                      | _ => none
                    | none => none
                  | _ => none
                else none
              | none => none
            | _ => none
          | none => none
        | _ => none
      else none
    | none => none
  | _ => none

/-- Parses one or more comma-separated objects up to and including the
closing `]`.  The fuel only bounds the recursion; callers supply enough. -/
def parseItemsAux : Nat → List Char → Option (List Exercise × List Char)
  | 0, _ => none
  | fuel + 1, l =>
    match parseExercise l with
    | none => none
    | some (e, r) =>
      match r with
      | ',' :: r2 => (parseItemsAux fuel r2).map (fun p => (e :: p.1, p.2))
      | ']' :: r2 => some ([e], r2)
      | _ => none

/-- `json.Unmarshal` into `[]exercise`, on the grammar `json.Marshal`
emits for that type: `null` keeps the slice nil, `[]` produces the empty
non-nil slice, and a non-empty array produces its elements. -/
def unmarshalExercises (s : String) : Option (GoSlice Exercise) :=
  match s.toList with
  | ['n', 'u', 'l', 'l'] => some none
  | ['[', ']'] => some (some [])
  | '[' :: r =>
    match parseItemsAux (r.length + 1) r with
    | some (es, []) => some (some es)
    | _ => none
  | _ => none

example : unmarshalExercises (marshalExercises none) = some none := by decide
example : unmarshalExercises (marshalExercises (some [])) = some (some []) := by decide
example :
    unmarshalExercises (marshalExercises (some [⟨"20 lunges", "xyz"⟩]))
      = some (some [⟨"20 lunges", "xyz"⟩]) := by decide
example :
    unmarshalExercises (marshalExercises (some [⟨"a<b&\n", "x"⟩, ⟨"", "\"q\\"⟩]))
      = some (some [⟨"a<b&\n", "x"⟩, ⟨"", "\"q\\"⟩]) := by decide

/-! ## Round-trip of the JSON codec -/

lemma hexVal_hexDigitChar_lt : ∀ k < 16, hexVal (hexDigitChar k) = some k := by decide

lemma hexDigitChar_mod (m : Nat) : hexDigitChar m = hexDigitChar (m % 16) := by
  have h : m % 16 % 16 = m % 16 := by omega
  simp [hexDigitChar, h]

lemma hexVal_hexDigitChar (m : Nat) : hexVal (hexDigitChar m) = some (m % 16) := by
  rw [hexDigitChar_mod]
  exact hexVal_hexDigitChar_lt (m % 16) (Nat.mod_lt _ (by norm_num))

lemma parseStrBody_escChar (c : Char) (rest : List Char) :
    parseStrBody (jsonEscChar c ++ rest) = (parseStrBody rest).map (fun p => (c :: p.1, p.2)) := by
  by_cases h1 : c = '\"'
  · subst h1
    rw [show jsonEscChar '\"' ++ rest = '\\' :: '\"' :: rest from rfl, parseStrBody.eq_def]
    simp
  · by_cases h2 : c = '\\'
    · subst h2
      rw [show jsonEscChar '\\' ++ rest = '\\' :: '\\' :: rest from rfl, parseStrBody.eq_def]
      simp
    · by_cases h3 : c = '\n'
      · subst h3
        rw [show jsonEscChar '\n' ++ rest = '\\' :: 'n' :: rest from rfl, parseStrBody.eq_def]
        simp
      · by_cases h4 : c = '\r'
        · subst h4
          rw [show jsonEscChar '\r' ++ rest = '\\' :: 'r' :: rest from rfl, parseStrBody.eq_def]
          simp
        · by_cases h5 : c = '\t'
          · subst h5
            rw [show jsonEscChar '\t' ++ rest = '\\' :: 't' :: rest from rfl,
              parseStrBody.eq_def]
            simp
          · by_cases h6 : c.toNat < 32 ∨ c = '<' ∨ c = '>' ∨ c = '&' ∨ c.toNat = 8232 ∨
                c.toNat = 8233
            · have harith : 4096 * (c.toNat / 4096 % 16) + 256 * (c.toNat / 256 % 16)
                  + 16 * (c.toNat / 16 % 16) + c.toNat % 16 = c.toNat := by
                have hb : c.toNat < 65536 := by
                  rcases h6 with h | h | h | h | h | h
                  · omega
                  · subst h; decide
                  · subst h; decide
                  · subst h; decide
                  · omega
                  · omega
                omega
              rw [jsonEscChar, if_neg h1, if_neg h2, if_neg h3, if_neg h4, if_neg h5, if_pos h6,
                uEsc, List.cons_append, List.cons_append, parseStrBody.eq_def]
              simp [hexVal_hexDigitChar, harith]
            · rw [jsonEscChar, if_neg h1, if_neg h2, if_neg h3, if_neg h4, if_neg h5, if_neg h6,
                List.singleton_append, parseStrBody.eq_def]
              simp [h1, h2]

lemma parseStrBody_enc (cs k : List Char) :
    parseStrBody (encodeBody cs ++ '\"' :: k) = some (cs, k) := by
  induction cs with
  | nil =>
    rw [show encodeBody [] ++ '\"' :: k = '\"' :: k from rfl, parseStrBody.eq_def]
    simp
  | cons c rest ih =>
    rw [encodeBody, List.append_assoc, parseStrBody_escChar, ih]
    rfl

lemma mk_toList (s : String) : String.mk s.toList = s := rfl

lemma parseJString_enc (s : String) (k : List Char) :
    parseJString (encStr s k) = some (s.toList, k) := by
  rw [encStr, parseJString, parseStrBody_enc]

lemma parseExercise_enc (e : Exercise) (k : List Char) :
    parseExercise (encExercise e k) = some (e, k) := by
  rw [encExercise, parseExercise]
  simp [parseJString_enc, mk_toList]

lemma parseItemsAux_enc :
    ∀ (l : List Exercise) (k : List Char) (fuel : Nat), l ≠ [] → l.length ≤ fuel →
      parseItemsAux fuel (encItems l (']' :: k)) = some (l, k) := by
  intro l
  induction l with
  | nil => intro k fuel h _; exact absurd rfl h
  | cons e es ih =>
    intro k fuel _ hlen
    cases fuel with
    | zero => simp at hlen
    | succ f =>
      cases es with
      | nil =>
        rw [show encItems [e] (']' :: k) = encExercise e (']' :: k) from rfl,
          parseItemsAux, parseExercise_enc]
        rfl
      | cons e2 es2 =>
        rw [show encItems (e :: e2 :: es2) (']' :: k)
            = encExercise e (',' :: encItems (e2 :: es2) (']' :: k)) from rfl,
          parseItemsAux, parseExercise_enc]
        have hlen2 : (e2 :: es2).length ≤ f := by
          simp only [List.length_cons] at hlen ⊢
          omega
        rw [show (match (some (e, ',' :: encItems (e2 :: es2) (']' :: k)) :
              Option (Exercise × List Char)) with
            | none => none
            | some (e, r) =>
              match r with
              | ',' :: r2 => (parseItemsAux f r2).map (fun p => (e :: p.1, p.2))
              | ']' :: r2 => some ([e], r2)
              | _ => none)
            = (parseItemsAux f (encItems (e2 :: es2) (']' :: k))).map
                (fun p => (e :: p.1, p.2)) from rfl]
        rw [ih k f (by simp) hlen2]
        rfl

lemma encStr_length (s : String) (k : List Char) :
    k.length + 2 ≤ (encStr s k).length := by
  simp only [encStr, List.length_cons, List.length_append]
  omega

lemma encExercise_length (e : Exercise) (k : List Char) :
    k.length + 1 ≤ (encExercise e k).length := by
  have h1 := encStr_length e.EmbedURL ('\x7d' :: k)
  have h2 := encStr_length "EmbedURL" (':' :: encStr e.EmbedURL ('\x7d' :: k))
  have h3 := encStr_length e.Name
    (',' :: encStr "EmbedURL" (':' :: encStr e.EmbedURL ('\x7d' :: k)))
  have h4 := encStr_length "Name"
    (':' :: encStr e.Name (',' :: encStr "EmbedURL" (':' :: encStr e.EmbedURL ('\x7d' :: k))))
  simp only [encExercise, List.length_cons] at *
  omega

lemma encItems_length :
    ∀ (l : List Exercise) (k : List Char), l.length + k.length ≤ (encItems l k).length := by
  intro l
  induction l with
  | nil => intro k; simp [encItems]
  | cons e es ih =>
    intro k
    cases es with
    | nil =>
      have := encExercise_length e k
      rw [show encItems [e] k = encExercise e k from rfl]
      simp only [List.length_cons, List.length_nil] at *
      omega
    | cons e2 es2 =>
      have h1 := encExercise_length e (',' :: encItems (e2 :: es2) k)
      have h2 := ih k
      rw [show encItems (e :: e2 :: es2) k
          = encExercise e (',' :: encItems (e2 :: es2) k) from rfl]
      simp only [List.length_cons] at *
      omega

lemma encItems_cons_head (e : Exercise) (es : List Exercise) (k : List Char) :
    ∃ t, encItems (e :: es) k = '\x7b' :: t := by
  cases es
  · exact ⟨_, rfl⟩
  · exact ⟨_, rfl⟩

lemma marshal_unmarshal (s : GoSlice Exercise) :
    unmarshalExercises (marshalExercises s) = some s := by
  match s with
  | none => decide
  | some [] => decide
  | some (e :: es) =>
    obtain ⟨t, ht⟩ := encItems_cons_head e es [']']
    have hlist : (marshalExercises (some (e :: es))).toList
        = '[' :: encItems (e :: es) [']'] := rfl
    have hfuel : (e :: es).length ≤ (encItems (e :: es) [']']).length + 1 := by
      have h := encItems_length (e :: es) [']']
      simp only [List.length_cons, List.length_nil] at h ⊢
      omega
    rw [unmarshalExercises, hlist, ht]
    show (match parseItemsAux (('\x7b' :: t).length + 1) ('\x7b' :: t) with
         | some (es2, []) => some (some es2)
         | _ => none) = some (some (e :: es))
    rw [← ht, parseItemsAux_enc (e :: es) [] _ (by simp) hfuel]

/-! ## The two cache backends

Cache errors: the memcached client's `mc.ErrNotFound` and the firestore
variant's `docNotFoundError` are both modelled by `CacheErr.notFound`;
every other read error (transport, decode, …) by `CacheErr.other`. -/

/-- A cache read error: the backend's NotFound signal, or any other
error. -/
inductive CacheErr where
  | notFound : CacheErr
  | other : String → CacheErr
deriving DecidableEq

/-- State of the memcached store: keys to stored string values (newest
binding first; time-based expiration is outside the state model). -/
abbrev McStore := List (String × String)

/-- Models `saveExercisesForImageToCache` of src/unnamed/part_000 lines
166-174: `json.Marshal` the slice and `Set` it under the image URL (the
7-day expiration only affects eviction, which is outside the model). -/
def saveExercisesMC (st : McStore) (imageURL : String) (ex : GoSlice Exercise) : McStore :=
  (imageURL, marshalExercises ex) :: st

/-- Models `getExercisesFromCache` of src/unnamed/part_000 lines 132-142:
`Get` the raw value (an absent key is `mc.ErrNotFound`) and
`json.Unmarshal` it. -/
def getExercisesMC (st : McStore) (imageURL : String) : Except CacheErr (GoSlice Exercise) :=
  match st.lookup imageURL with
  | none => .error .notFound
  | some v =>
    match unmarshalExercises v with
    | none => .error (.other "unmarshal error")
    | some ex => .ok ex

/-- Models `getFirestoreName` of src/unnamed/part_001 lines 114-116:
replace `/` and `:` with `_`. -/
def getFirestoreName (original : String) : String :=
  String.mk (original.toList.map (fun c => if c = '/' ∨ c = ':' then '_' else c))

/-- State of the firestore `cache` collection: document names to the
document's `exercises` field, which is `none` when the field was omitted
(`omitempty` on an empty slice) and otherwise holds the stored
sequence. -/
abbrev FsStore := List (String × Option (List Exercise))

/-- Models `saveExercisesForImageToCache` of src/unnamed/part_001 lines
155-162: `Set` the document named `getFirestoreName(imageURL)` to
`firestoreDoc{Exercises: exercises}`; the field is tagged
`firestore:"exercises,omitempty"`, so it is omitted whenever
`len(exercises) == 0`. -/
def saveExercisesFS (st : FsStore) (imageURL : String) (ex : GoSlice Exercise) : FsStore :=
  (getFirestoreName imageURL, if goLen ex = 0 then none else some (ex.getD [])) :: st

/-- Models `getExercisesFromCache` of src/unnamed/part_001 lines 118-131:
a missing document is `docNotFoundError`; otherwise `DataTo` fills
`firestoreDoc`, leaving the nil zero value when the `exercises` field is
absent, and `doc.Exercises` is returned. -/
def getExercisesFS (st : FsStore) (imageURL : String) : Except CacheErr (GoSlice Exercise) :=
  match st.lookup (getFirestoreName imageURL) with
  | none => .error .notFound
  | some field =>
    match field with
    | none => .ok none
    | some l => .ok (some l)

/-! ## Claim theorems about the cache -/

/-- C2, counterexample: writing the empty exercise sequence to the
document-store backend and reading it back succeeds but yields the nil
slice, not the empty sequence: the `exercises` field is omitted on write
and `DataTo` leaves the nil zero value on read (which the handler's
`exercises == nil` check then treats as a cache miss). -/
theorem cache_empty_roundtrip_counterexample :
    getExercisesFS
        (saveExercisesFS [] "https://darebee.com/images/programs/foundation/web/day03.jpg"
          (some []))
        "https://darebee.com/images/programs/foundation/web/day03.jpg"
      = .ok (none : GoSlice Exercise) ∧
    (none : GoSlice Exercise) ≠ some ([] : List Exercise) := by
  exact ⟨by decide, by decide⟩

/-- C2 (amended): a write followed by a read of the same key with no
intervening overwrite always succeeds (never NotFound) and returns a
sequence with the same elements in the same order.  The key-value backend
round-trips every slice exactly (nil as nil, empty as empty, elements
preserved).  The document-store backend round-trips nonempty sequences
exactly, but because the `exercises` field is omitted when the sequence is
empty, reading back a written empty (or nil) sequence yields the nil
slice: a read success, not NotFound, but a nil result. -/
theorem cache_roundtrip (st : McStore) (st2 : FsStore) (key : String) (ex : GoSlice Exercise) :
    getExercisesMC (saveExercisesMC st key ex) key = .ok ex ∧
    getExercisesFS (saveExercisesFS st2 key ex) key
      = .ok (if goLen ex = 0 then (none : GoSlice Exercise) else ex) ∧
    (∃ r, getExercisesFS (saveExercisesFS st2 key ex) key = .ok r
      ∧ r.getD [] = ex.getD []) := by
  refine ⟨?_, ?_, ?_⟩
  · rw [saveExercisesMC, getExercisesMC]
    simp only [List.lookup, beq_self_eq_true, if_true]
    rw [marshal_unmarshal]
  · rw [saveExercisesFS, getExercisesFS]
    simp only [List.lookup, beq_self_eq_true, if_true]
    by_cases h : goLen ex = 0
    · simp only [h, if_true]
    · simp only [h, if_false]
      cases ex with
      | none => simp [goLen] at h
      | some l => rfl
  · rw [saveExercisesFS, getExercisesFS]
    simp only [List.lookup, beq_self_eq_true, if_true]
    by_cases h : goLen ex = 0
    · refine ⟨none, by simp only [h, if_true], ?_⟩
      simp only [goLen] at h
      simp [List.length_eq_zero.mp h]
    · refine ⟨ex, ?_, rfl⟩
      simp only [h, if_false]
      cases ex with
      | none => simp [goLen] at h
      | some l => rfl

/-! ## The request handler `printVideos`

Two deployment variants are modelled.  The hosted-function variant
(src/unnamed/part_001) parses query parameters, reports failures with
`http.Error(w, msg, 500)` and renders with 19/23-space indented
fragments; the path-parameter memcached variant (src/unnamed/part_000)
receives its parameters from the router, reports failures by returning
the error to the routing framework and renders with 20/24-space indented
fragments.  The handler's external effects — the cache read, the
extraction pipeline (OCR + scraping) and the cache write — are inputs of
the model; the rendered body, the recorded HTTP status, the log lines and
whether the pipeline/cache-write ran are its outputs.  The request-URI
text inside log lines is abstracted away (`LogMsg` keeps only the
formatted error payloads). -/

/-- The textual form (`err.Error()`) of a cache read error:
`docNotFoundError` is `errors.New("document not found")`; other errors
carry their own message. -/
def cacheErrText : CacheErr → String
  | .notFound => "document not found"
  | .other m => m

/-- One character quoted as Go's `strconv.Quote` (used by `%q` in
`strconv.Atoi` error messages): standard escapes, `\xXX` for the
remaining control characters; printable characters are emitted literally
(Go also escapes non-printable non-ASCII runes, which no claim here
exercises). -/
def goQuoteInner (c : Char) : List Char :=
  if c = '\"' then ['\\', '\"']
  else if c = '\\' then ['\\', '\\']
  else if c = '\x07' then ['\\', 'a']
  else if c = '\x08' then ['\\', 'b']
  else if c = '\x0c' then ['\\', 'f']
  else if c = '\n' then ['\\', 'n']
  else if c = '\r' then ['\\', 'r']
  else if c = '\t' then ['\\', 't']
  else if c = '\x0b' then ['\\', 'v']
  else if c.toNat < 32 ∨ c.toNat = 127 then
    ['\\', 'x', hexDigitChar (c.toNat / 16), hexDigitChar c.toNat]
  else [c]

/-- Go `strconv.Quote`. -/
def goQuote (s : String) : String :=
  String.mk ('\"' :: (s.toList.map goQuoteInner).flatten ++ ['\"'])

/-- The message of the `strconv.Atoi` error that `getImageURL` propagates
(`err.Error()` of a `strconv.NumError`). -/
def atoiErrText (e : AtoiErr) (day : String) : String :=
  "strconv.Atoi: parsing " ++ goQuote day ++ ": " ++
    (match e with
     | .notNumeric => "invalid syntax"
     | .outOfRange => "value out of range")

/-- One log line of the handler, with the request-URI text abstracted. -/
inductive LogMsg where
  | reqLine : LogMsg
  | cacheReadErr : String → LogMsg
  | cacheMiss : LogMsg
  | cacheSaveErr : String → LogMsg
deriving DecidableEq

/-- The response of the hosted-function handler: accumulated body, the
status set by `http.Error` (if any), and whether `Content-Type:
text/html` was set. -/
structure FsResponse where
  body : String
  status : Option Nat
  ctHTML : Bool
deriving DecidableEq

/-- Outcome of one hosted-function request: response, log lines, whether
the extraction pipeline ran, whether a cache write was attempted. -/
structure FsOutcome where
  resp : FsResponse
  logs : List LogMsg
  computed : Bool
  saveTried : Bool
deriving DecidableEq

/-- The `<h2>`/`<iframe>` (or "Video not found") fragment of one exercise
in the hosted-function variant (src/unnamed/part_001 lines 220-233). -/
def renderExerciseFS (e : Exercise) : String :=
  if e.EmbedURL ≠ "" then
    "\n                   <h2>" ++ e.Name ++ "</h2>\n                   <p>\n                       <iframe width=\"845\" height=\"480\" src=\"//www.youtube.com/embed/"
      ++ e.EmbedURL ++ "?rel=0&showinfo=0\" frameborder=\"0\" allowfullscreen></iframe>\n                   </p>"
  else
    "\n                   <h2>" ++ e.Name ++ "</h2>\n                   <p>Video not found</p>\n               "

/-- The exercise loop of the hosted-function variant (`range` over a nil
slice renders nothing). -/
def renderAllFS (gs : GoSlice Exercise) : String :=
  String.join ((gs.getD []).map renderExerciseFS)

/-- Models `printVideos` of src/unnamed/part_001 lines 192-234 from the
point where both query parameters are available: resolve the image URL
(500 on failure), set the HTML content type and emit the image tag, read
the cache (logging any non-NotFound error), on a nil result log a cache
miss and run the pipeline (500 aborts the rest of the body on failure),
attempt the cache write (logging failures), and render the exercise
list. -/
def printVideosFromParamsFS (workout day : String)
    (cacheRes : Except CacheErr (GoSlice Exercise))
    (pipeRes : Except String (GoSlice Exercise))
    (saveErr : Option String) : FsOutcome :=
  match getImageURL workout day with
  | .error e =>
    { resp := { body := atoiErrText e day ++ "\n", status := some 500, ctHTML := false },
      logs := [], computed := false, saveTried := false }
  | .ok url =>
    let imgTag := "<img src=\"" ++ url ++ "\" /><br/>"
    let cachePair : GoSlice Exercise × Option CacheErr :=
      match cacheRes with
      | .ok v => (v, none)
      | .error e => (none, some e)
    let logs1 : List LogMsg :=
      match cachePair.2 with
      | some e => if e ≠ CacheErr.notFound then [LogMsg.cacheReadErr (cacheErrText e)] else []
      | none => []
    if cachePair.1 = none then
      match pipeRes with
      | .error msg =>
        { resp := { body := imgTag ++ msg ++ "\n", status := some 500, ctHTML := true },
          logs := logs1 ++ [LogMsg.cacheMiss], computed := true, saveTried := false }
      | .ok ex2 =>
        { resp := { body := imgTag ++ renderAllFS ex2, status := none, ctHTML := true },
          logs := logs1 ++ [LogMsg.cacheMiss]
            ++ (match saveErr with
                | some m => [LogMsg.cacheSaveErr m]
                | none => []),
          computed := true, saveTried := true }
    else
      { resp := { body := imgTag ++ renderAllFS cachePair.1, status := none, ctHTML := true },
        logs := logs1, computed := false, saveTried := false }

/-- Models `parseQueryParam` of src/unnamed/part_001 lines 164-173:
`q[name]` is nil when the key is absent (or bound to a nil slice), which
is the "not found" error; a value count other than 1 is the "expected
exactly 1" error; otherwise the single value is returned. -/
def parseQueryParam (q : List (String × GoSlice String)) (name : String) :
    Except String String :=
  match (q.lookup name).join with
  | none => .error ("param " ++ name ++ " not found")
  | some vs =>
    if vs.length ≠ 1 then
      .error ("expected exactly 1 value for param " ++ name ++ ", but got " ++ natStr vs.length)
    else .ok (vs.headD "")

/-- Models the full `printVideos` of src/unnamed/part_001: log the
request line, parse the `workout` and `day` query parameters (each
failure is `http.Error(w, err, 500)` before anything is rendered), then
continue with `printVideosFromParamsFS`. -/
def printVideosFS (q : List (String × GoSlice String))
    (cacheRes : Except CacheErr (GoSlice Exercise))
    (pipeRes : Except String (GoSlice Exercise))
    (saveErr : Option String) : FsOutcome :=
  match parseQueryParam q "workout" with
  | .error msg =>
    { resp := { body := msg ++ "\n", status := some 500, ctHTML := false },
      logs := [LogMsg.reqLine], computed := false, saveTried := false }
  | .ok workout =>
    match parseQueryParam q "day" with
    | .error msg =>
      { resp := { body := msg ++ "\n", status := some 500, ctHTML := false },
        logs := [LogMsg.reqLine], computed := false, saveTried := false }
    | .ok day =>
      let o := printVideosFromParamsFS workout day cacheRes pipeRes saveErr
      { o with logs := LogMsg.reqLine :: o.logs }

/-- Outcome of one request of the path-parameter memcached variant: the
body written so far, the error returned to the routing framework (if
any), whether the HTML content type was set (it is set only after the
loop), log lines and the pipeline/cache-write flags. -/
structure McOutcome where
  body : String
  retErr : Option String
  ctHTML : Bool
  logs : List LogMsg
  computed : Bool
  saveTried : Bool
deriving DecidableEq

/-- The fragment of one exercise in the memcached variant
(src/unnamed/part_000 lines 204-217). -/
def renderExerciseMC (e : Exercise) : String :=
  if e.EmbedURL ≠ "" then
    "\n                    <h2>" ++ e.Name ++ "</h2>\n                    <p>\n                        <iframe width=\"845\" height=\"480\" src=\"//www.youtube.com/embed/"
      ++ e.EmbedURL ++ "?rel=0&showinfo=0\" frameborder=\"0\" allowfullscreen></iframe>\n                    </p>"
  else
    "\n                    <h2>" ++ e.Name ++ "</h2>\n                    <p>Video not found</p>\n                "

/-- The exercise loop of the memcached variant. -/
def renderAllMC (gs : GoSlice Exercise) : String :=
  String.join ((gs.getD []).map renderExerciseMC)

/-- Models `printVideos` of src/unnamed/part_000 lines 176-221 from the
point where both path parameters are available.  Failures return the
error to the routing framework (`retErr`); the content type is set only
when the handler reaches its end. -/
def printVideosFromParamsMC (workout day : String)
    (cacheRes : Except CacheErr (GoSlice Exercise))
    (pipeRes : Except String (GoSlice Exercise))
    (saveErr : Option String) : McOutcome :=
  match getImageURL workout day with
  | .error e =>
    { body := "", retErr := some (atoiErrText e day), ctHTML := false,
      logs := [LogMsg.reqLine], computed := false, saveTried := false }
  | .ok url =>
    let imgTag := "<img src=\"" ++ url ++ "\" /><br/>"
    let cachePair : GoSlice Exercise × Option CacheErr :=
      match cacheRes with
      | .ok v => (v, none)
      | .error e => (none, some e)
    let logs1 : List LogMsg :=
      LogMsg.reqLine ::
        (match cachePair.2 with
         | some e => if e ≠ CacheErr.notFound then [LogMsg.cacheReadErr (cacheErrText e)] else []
         | none => [])
    if cachePair.1 = none then
      match pipeRes with
      | .error msg =>
        { body := imgTag, retErr := some msg, ctHTML := false,
          logs := logs1 ++ [LogMsg.cacheMiss], computed := true, saveTried := false }
      | .ok ex2 =>
        { body := imgTag ++ renderAllMC ex2, retErr := none, ctHTML := true,
          logs := logs1 ++ [LogMsg.cacheMiss]
            ++ (match saveErr with
                | some m => [LogMsg.cacheSaveErr m]
                | none => []),
          computed := true, saveTried := true }
    else
      { body := imgTag ++ renderAllMC cachePair.1, retErr := none, ctHTML := true,
        logs := logs1, computed := false, saveTried := false }


/-! ## Claim theorems about the request handler -/

/-- C7: in both handler variants, a cache read failing with any error
other than NotFound does not abort the request: the error is logged, the
handler proceeds exactly as on a NotFound cache miss (the pipeline runs;
the write is attempted exactly when it would be on a NotFound miss, i.e.
whenever the pipeline succeeds), and the rendered response is identical
to the NotFound run. -/
theorem cache_read_error_treated_as_miss :
    (∀ (workout day url msg : String) (pipeRes : Except String (GoSlice Exercise))
        (saveErr : Option String),
      getImageURL workout day = .ok url →
      ((printVideosFromParamsFS workout day (.error (.other msg)) pipeRes saveErr).resp
          = (printVideosFromParamsFS workout day (.error .notFound) pipeRes saveErr).resp
        ∧ (printVideosFromParamsFS workout day (.error (.other msg)) pipeRes saveErr).computed
            = true
        ∧ (printVideosFromParamsFS workout day (.error (.other msg)) pipeRes saveErr).saveTried
            = (printVideosFromParamsFS workout day (.error .notFound) pipeRes saveErr).saveTried
        ∧ (∀ ex2, pipeRes = .ok ex2 →
            (printVideosFromParamsFS workout day (.error (.other msg)) pipeRes saveErr).saveTried
              = true)
        ∧ (printVideosFromParamsFS workout day (.error (.other msg)) pipeRes saveErr).logs
            = LogMsg.cacheReadErr (cacheErrText (CacheErr.other msg))
                :: (printVideosFromParamsFS workout day (.error .notFound) pipeRes saveErr).logs))
    ∧ (∀ (workout day url msg : String) (pipeRes : Except String (GoSlice Exercise))
        (saveErr : Option String),
      getImageURL workout day = .ok url →
      ((printVideosFromParamsMC workout day (.error (.other msg)) pipeRes saveErr).body
          = (printVideosFromParamsMC workout day (.error .notFound) pipeRes saveErr).body
        ∧ (printVideosFromParamsMC workout day (.error (.other msg)) pipeRes saveErr).retErr
            = (printVideosFromParamsMC workout day (.error .notFound) pipeRes saveErr).retErr
        ∧ (printVideosFromParamsMC workout day (.error (.other msg)) pipeRes saveErr).ctHTML
            = (printVideosFromParamsMC workout day (.error .notFound) pipeRes saveErr).ctHTML
        ∧ (printVideosFromParamsMC workout day (.error (.other msg)) pipeRes saveErr).computed
            = true
        ∧ (printVideosFromParamsMC workout day (.error (.other msg)) pipeRes saveErr).saveTried
            = (printVideosFromParamsMC workout day (.error .notFound) pipeRes saveErr).saveTried
        ∧ (∀ ex2, pipeRes = .ok ex2 →
            (printVideosFromParamsMC workout day (.error (.other msg)) pipeRes saveErr).saveTried
              = true)
        ∧ (printVideosFromParamsMC workout day (.error (.other msg)) pipeRes saveErr).logs
            = LogMsg.reqLine :: LogMsg.cacheReadErr (cacheErrText (CacheErr.other msg))
                :: ((printVideosFromParamsMC workout day (.error .notFound) pipeRes
                      saveErr).logs).tail)) := by
  constructor
  · intro workout day url msg pipeRes saveErr hurl
    refine ⟨?_, ?_, ?_, ?_, ?_⟩ <;>
      cases pipeRes <;> cases saveErr <;>
        simp [printVideosFromParamsFS, hurl, cacheErrText]
  · intro workout day url msg pipeRes saveErr hurl
    refine ⟨?_, ?_, ?_, ?_, ?_, ?_, ?_⟩ <;>
      cases pipeRes <;> cases saveErr <;>
        simp [printVideosFromParamsMC, hurl, cacheErrText]

/-- C7 witness: a concrete transport error behaves like NotFound for the
hosted-function variant at workout `foundation`, day `23`. -/
theorem cache_read_error_treated_as_miss_witness :
    (printVideosFromParamsFS "foundation" "23" (.error (.other "transport broken"))
        (.ok (some [⟨"20 lunges", "abc"⟩])) none).resp
      = (printVideosFromParamsFS "foundation" "23" (.error .notFound)
          (.ok (some [⟨"20 lunges", "abc"⟩])) none).resp :=
  (cache_read_error_treated_as_miss.1 "foundation" "23"
    "https://darebee.com/images/programs/foundation/web/day23.jpg" "transport broken"
    (.ok (some [⟨"20 lunges", "abc"⟩])) none (by decide)).1

lemma data_append (a b : String) : (a ++ b).data = a.data ++ b.data := rfl

lemma mem_toList_append (c : Char) (a b : String) :
    c ∈ (a ++ b).toList ↔ c ∈ a.toList ∨ c ∈ b.toList := by
  show c ∈ (a ++ b).data ↔ c ∈ a.data ∨ c ∈ b.data
  rw [data_append, List.mem_append]

lemma containsSeq_false_of_not_mem (c : Char) (xs l : List Char) (h : c ∉ l) :
    containsSeq (c :: xs) l = false := by
  induction l with
  | nil => rfl
  | cons a rest ih =>
    have hca : ¬ (c = a) := fun he => h (he ▸ List.mem_cons_self a rest)
    have hcr : c ∉ rest := fun hm => h (List.mem_cons_of_mem a hm)
    rw [containsSeq, ih hcr]
    simp [List.isPrefixOf, hca, beq_eq_false_iff_ne.mpr hca]

lemma natDigitsAux_mem :
    ∀ (fuel n : Nat) (acc : List Char) (c : Char), c ∈ natDigitsAux fuel n acc →
      c ∈ acc ∨ ∃ d, c = digitChar10 d := by
  intro fuel
  induction fuel with
  | zero => intro n acc c h; exact Or.inl h
  | succ f ih =>
    intro n acc c h
    rw [natDigitsAux] at h
    by_cases hn10 : n < 10
    · rw [if_pos hn10] at h
      rcases List.mem_cons.mp h with h1 | h1
      · exact Or.inr ⟨n, h1⟩
      · exact Or.inl h1
    · rw [if_neg hn10] at h
      rcases ih (n / 10) (digitChar10 n :: acc) c h with h2 | h2
      · rcases List.mem_cons.mp h2 with h3 | h3
        · exact Or.inr ⟨n, h3⟩
        · exact Or.inl h3
      · exact Or.inr h2

lemma digitChar10_mod (d : Nat) : digitChar10 d = digitChar10 (d % 10) := by
  have h : d % 10 % 10 = d % 10 := by omega
  simp [digitChar10, h]

lemma digitChar10_ne_lt_bounded : ∀ d < 10, digitChar10 d ≠ '<' := by decide

lemma digitChar10_ne_lt (d : Nat) : digitChar10 d ≠ '<' := by
  rw [digitChar10_mod]
  exact digitChar10_ne_lt_bounded (d % 10) (Nat.mod_lt _ (by norm_num))

lemma lt_not_mem_natStr (n : Nat) : '<' ∉ (natStr n).toList := by
  intro hmem
  rcases natDigitsAux_mem (n + 1) n [] '<' hmem with h | ⟨d, hd⟩
  · simp at h
  · exact digitChar10_ne_lt d hd.symm

lemma parseQueryParam_ok_iff (q : List (String × GoSlice String)) (name v : String) :
    parseQueryParam q name = .ok v ↔ (q.lookup name).join = some [v] := by
  rw [parseQueryParam]
  cases hj : (q.lookup name).join with
  | none => simp
  | some vs =>
    cases vs with
    | nil => simp
    | cons a t =>
      cases t with
      | nil => simp [List.headD]
      | cons b t2 => simp

lemma parseQueryParam_error_no_lt (q : List (String × GoSlice String)) (name msg : String)
    (hn : '<' ∉ name.toList) (h : parseQueryParam q name = .error msg) : '<' ∉ msg.toList := by
  rw [parseQueryParam] at h
  cases hj : (q.lookup name).join with
  | none =>
    rw [hj] at h
    have h2 : (Except.error ("param " ++ name ++ " not found") : Except String String)
        = .error msg := h
    have hmsg : ("param " ++ name ++ " not found") = msg := by
      injection h2
    intro hmem
    rw [← hmsg] at hmem
    rcases (mem_toList_append _ _ _).mp hmem with hm | hm
    · rcases (mem_toList_append _ _ _).mp hm with hm2 | hm2
      · simp at hm2
      · exact hn hm2
    · simp at hm
  | some vs =>
    rw [hj] at h
    have h2 : (if vs.length ≠ 1 then
          (Except.error ("expected exactly 1 value for param " ++ name ++ ", but got "
            ++ natStr vs.length) : Except String String)
        else .ok (vs.headD "")) = .error msg := h
    by_cases hl : vs.length ≠ 1
    · rw [if_pos hl] at h2
      have hmsg : ("expected exactly 1 value for param " ++ name ++ ", but got "
          ++ natStr vs.length) = msg := by
        injection h2
      intro hmem
      rw [← hmsg] at hmem
      rcases (mem_toList_append _ _ _).mp hmem with hm | hm
      · rcases (mem_toList_append _ _ _).mp hm with hm2 | hm2
        · rcases (mem_toList_append _ _ _).mp hm2 with hm3 | hm3
          · simp at hm3
          · exact hn hm3
        · simp at hm2
      · exact lt_not_mem_natStr vs.length hm
    · rw [if_neg hl] at h2
      simp at h2

/-- C8: in the query-parameter (hosted-function) variant, the handler
fails with a textual message and HTTP 500 — rendering no image tag and no
exercise heading — whenever the `workout` or the `day` query parameter
does not have exactly one value, and it neither runs the pipeline nor
touches the cache; when both appear exactly once, the handler proceeds
with exactly those two single values. -/
theorem query_param_contract :
    (∀ (q : List (String × GoSlice String)) (cacheRes : Except CacheErr (GoSlice Exercise))
        (pipeRes : Except String (GoSlice Exercise)) (saveErr : Option String),
      ((¬ ∃ w, (q.lookup "workout").join = some [w]) ∨
        (¬ ∃ d, (q.lookup "day").join = some [d])) →
      ((printVideosFS q cacheRes pipeRes saveErr).resp.status = some 500
        ∧ containsSeq ("<img".toList)
            (printVideosFS q cacheRes pipeRes saveErr).resp.body.toList = false
        ∧ containsSeq ("<h2>".toList)
            (printVideosFS q cacheRes pipeRes saveErr).resp.body.toList = false
        ∧ (printVideosFS q cacheRes pipeRes saveErr).computed = false
        ∧ (printVideosFS q cacheRes pipeRes saveErr).saveTried = false))
    ∧ (∀ (q : List (String × GoSlice String)) (w d : String)
        (cacheRes : Except CacheErr (GoSlice Exercise))
        (pipeRes : Except String (GoSlice Exercise)) (saveErr : Option String),
      (q.lookup "workout").join = some [w] → (q.lookup "day").join = some [d] →
      printVideosFS q cacheRes pipeRes saveErr
        = { printVideosFromParamsFS w d cacheRes pipeRes saveErr with
            logs := LogMsg.reqLine
              :: (printVideosFromParamsFS w d cacheRes pipeRes saveErr).logs }) := by
  constructor
  · intro q cacheRes pipeRes saveErr hbad
    cases hw : parseQueryParam q "workout" with
    | error msg =>
      have hno : '<' ∉ (msg ++ "\n").toList := by
        intro hm
        rcases (mem_toList_append _ _ _).mp hm with hm2 | hm2
        · exact parseQueryParam_error_no_lt q "workout" msg (by decide) hw hm2
        · simp at hm2
      refine ⟨?_, ?_, ?_, ?_, ?_⟩ <;> simp only [printVideosFS, hw] <;>
        exact containsSeq_false_of_not_mem _ _ _ hno
    | ok w =>
      cases hd : parseQueryParam q "day" with
      | error msg =>
        have hno : '<' ∉ (msg ++ "\n").toList := by
          intro hm
          rcases (mem_toList_append _ _ _).mp hm with hm2 | hm2
          · exact parseQueryParam_error_no_lt q "day" msg (by decide) hd hm2
          · simp at hm2
        refine ⟨?_, ?_, ?_, ?_, ?_⟩ <;> simp only [printVideosFS, hw, hd] <;>
          exact containsSeq_false_of_not_mem _ _ _ hno
      | ok d =>
        exfalso
        rcases hbad with hb | hb
        · exact hb ⟨w, (parseQueryParam_ok_iff q "workout" w).mp hw⟩
        · exact hb ⟨d, (parseQueryParam_ok_iff q "day" d).mp hd⟩
  · intro q w d cacheRes pipeRes saveErr h1 h2
    have hw := (parseQueryParam_ok_iff q "workout" w).mpr h1
    have hd := (parseQueryParam_ok_iff q "day" d).mpr h2
    simp only [printVideosFS, hw, hd]

/-- C8 witness: with the `day` parameter missing, the request fails with
status 500, the pipeline does not run and no cache write is attempted. -/
theorem query_param_contract_witness :
    (printVideosFS [("workout", some ["foundation"])] (.error .notFound) (.ok none)
        none).resp.status = some 500
    ∧ (printVideosFS [("workout", some ["foundation"])] (.error .notFound) (.ok none)
        none).computed = false :=
  have h := query_param_contract.1 [("workout", some ["foundation"])] (.error .notFound)
    (.ok none) none
    (Or.inr (by rintro ⟨d, hd⟩; simp +decide [List.lookup] at hd))
  ⟨h.1, h.2.2.2.1⟩

/-! ## The serverless platform adapter (src/nodego/supervisor.go)

Log entries, batching (`loggingContext.addEntry`, `logBatch.addEntry`) and
the report worker / kill protocol (`startReportWorker`, `report`,
`postToSupervisor`, `killInstance`).  Payload length is the Go `len` of
the text payload, i.e. its UTF-8 byte size. -/

/-- The `logEntry` struct. -/
structure LogEntry where
  textPayload : String
  severity : String
  time : String
  executionID : String
deriving DecidableEq

/-- The `logBatch` struct: its entries and the running payload length
(the `ready` channel is not part of the sequential model). -/
structure LogBatch where
  entries : List LogEntry
  payloadLength : Nat
deriving DecidableEq

/-- Models `logBatch.addEntry`: append the entry and add `len(TextPayload)`
to the running payload length. -/
def logBatchAdd (b : LogBatch) (e : LogEntry) : LogBatch :=
  { entries := b.entries ++ [e],
    payloadLength := b.payloadLength + e.textPayload.utf8ByteSize }

/-- The logging context as seen by a sequence of `addEntry` calls: the
current batch, and the batches already replaced ("closed") by the size
guard. -/
structure LCState where
  current : LogBatch
  closed : List LogBatch
deriving DecidableEq

/-- The state right after `initialize` ran `startNewBatch` once. -/
def lcInit : LCState :=
  { current := { entries := [], payloadLength := 0 }, closed := [] }

/-- Modelled from the spec: the constant `maxLogBatchEntries` is declared
in a nodego file that is not under src/; the spec fixes the entry cap of a
batch at 100.  (`maxLogBatchLength` is left unspecified by the spec and is
universally quantified in the theorems.) -/
def maxLogBatchEntries : Nat := 100

/-- Models `loggingContext.addEntry` (src/nodego/supervisor.go lines
120-138): if the current batch is non-empty and appending the entry would
exceed the entry cap or the payload cap, the current batch is replaced by
a fresh one (`startNewBatch`) before the entry is appended. -/
def lcAddEntry (maxEntries maxLen : Nat) (st : LCState) (e : LogEntry) : LCState :=
  if 0 < st.current.entries.length ∧
      (st.current.entries.length + 1 > maxEntries ∨
        st.current.payloadLength + e.textPayload.utf8ByteSize > maxLen) then
    { current := logBatchAdd { entries := [], payloadLength := 0 } e,
      closed := st.closed ++ [st.current] }
  else
    { st with current := logBatchAdd st.current e }

/-- A sequence of `addEntry` calls starting from the freshly initialized
context. -/
def lcRun (maxEntries maxLen : Nat) (es : List LogEntry) : LCState :=
  es.foldl (lcAddEntry maxEntries maxLen) lcInit

/-- Outcome of one `postToSupervisor` call, as decided by the HTTP
round-trip: a transport error, a timeout, or a response status code. -/
inductive PostOutcome where
  | transportErr : String → PostOutcome
  | timeout : PostOutcome
  | status : Nat → PostOutcome
deriving DecidableEq

/-- Models `postToSupervisor` (src/nodego/supervisor.go lines 238-260):
transport errors and timeouts yield errors, as does any response status
outside `[200, 300)`; `none` is success.  (The message strings abbreviate
the Go messages, whose stack-trace suffix is not modelled.) -/
def postToSupervisorModel (o : PostOutcome) : Option String :=
  match o with
  | .transportErr m => some ("error when calling supervisor: " ++ m)
  | .timeout => some "timeout when calling supervisor"
  | .status code =>
    if code < 200 ∨ code ≥ 300 then
      some ("incorrect response code from supervisor: " ++ natStr code)
    else none

/-- Models `logBatch.report`: an empty batch reports success without
posting; otherwise the batch is posted to `/_ah/log`. -/
def reportModel (entries : List LogEntry) (o : PostOutcome) : Option String :=
  if entries.length = 0 then none else postToSupervisorModel o

/-- Observable actions of the report worker. -/
inductive WorkerAction where
  | postedLog : WorkerAction
  | wroteErrLine : WorkerAction
  | postedKill : WorkerAction
  | exited : Nat → WorkerAction
deriving DecidableEq

/-- Models `killInstance` (src/nodego/supervisor.go lines 262-269): POST
to `/_ah/kill`, write the error to stderr if that POST itself failed, and
exit with code 16 unconditionally. -/
def killInstanceActions (killOutcome : PostOutcome) : List WorkerAction :=
  WorkerAction.postedKill ::
    (match postToSupervisorModel killOutcome with
     | some _ => [WorkerAction.wroteErrLine]
     | none => []) ++ [WorkerAction.exited 16]

/-- Result of one iteration of `startReportWorker` on a ready batch. -/
structure WorkerStep where
  actions : List WorkerAction
  terminated : Bool
deriving DecidableEq

/-- Models one iteration of `startReportWorker` (src/nodego/supervisor.go
lines 140-155) on a batch with the given entries: `report` the batch; on
error, write it to stderr and invoke `killInstance`; on success the batch
is simply dropped and the loop continues. -/
def reportWorkerStep (entries : List LogEntry) (logOutcome killOutcome : PostOutcome) :
    WorkerStep :=
  if entries.length = 0 then { actions := [], terminated := false }
  else
    match postToSupervisorModel logOutcome with
    | none => { actions := [WorkerAction.postedLog], terminated := false }
    | some _ =>
      { actions := WorkerAction.postedLog :: WorkerAction.wroteErrLine
          :: killInstanceActions killOutcome,
        terminated := true }

/-! ## Claim theorems about the platform adapter -/

/-- C9: whenever relaying a non-empty log batch fails — transport error,
timeout, or a status outside 2xx — the worker invokes the kill protocol:
it POSTs to the kill endpoint and then exits with code 16 (the exit
happens even if the kill POST itself fails); a successful relay (2xx)
never triggers the kill protocol and the batch is simply discarded. -/
theorem kill_protocol (entries : List LogEntry) (logOutcome killOutcome : PostOutcome) :
    (entries ≠ [] → postToSupervisorModel logOutcome ≠ none →
      (∃ mid, (reportWorkerStep entries logOutcome killOutcome).actions
          = WorkerAction.postedLog :: WorkerAction.wroteErrLine :: WorkerAction.postedKill
              :: mid ++ [WorkerAction.exited 16])
      ∧ (reportWorkerStep entries logOutcome killOutcome).terminated = true)
    ∧ (∀ code, entries ≠ [] → logOutcome = .status code → 200 ≤ code → code < 300 →
      (reportWorkerStep entries logOutcome killOutcome).actions = [WorkerAction.postedLog]
      ∧ (reportWorkerStep entries logOutcome killOutcome).terminated = false) := by
  constructor
  · intro hne hfail
    have hlen : ¬ entries.length = 0 := by
      intro h0
      exact hne (List.length_eq_zero.mp h0)
    cases hpost : postToSupervisorModel logOutcome with
    | none => exact absurd hpost hfail
    | some m =>
      rw [reportWorkerStep, if_neg hlen, hpost]
      refine ⟨⟨(match postToSupervisorModel killOutcome with
          | some _ => [WorkerAction.wroteErrLine]
          | none => []), ?_⟩, rfl⟩
      simp [killInstanceActions]
  · intro code hne hcode h200 h300
    subst hcode
    have hlen : ¬ entries.length = 0 := by
      intro h0
      exact hne (List.length_eq_zero.mp h0)
    have hpost : postToSupervisorModel (.status code) = none := by
      rw [postToSupervisorModel, if_neg (by omega)]
    rw [reportWorkerStep, if_neg hlen, hpost]
    exact ⟨rfl, rfl⟩

/-- C9 witness: a 500 response on the log relay for a one-entry batch
posts the kill request and exits 16 (here the kill POST succeeds, so no
extra stderr line appears between the kill POST and the exit). -/
theorem kill_protocol_witness :
    (∃ mid, (reportWorkerStep [⟨"boom", "ERROR", "t", ""⟩] (.status 500)
          (.status 200)).actions
        = WorkerAction.postedLog :: WorkerAction.wroteErrLine :: WorkerAction.postedKill
            :: mid ++ [WorkerAction.exited 16])
    ∧ (reportWorkerStep [⟨"boom", "ERROR", "t", ""⟩] (.status 500)
        (.status 200)).terminated = true :=
  (kill_protocol [⟨"boom", "ERROR", "t", ""⟩] (.status 500) (.status 200)).1
    (by decide) (by decide)

/-- The per-batch invariant claimed for every closed batch. -/
def batchOK (maxEntries maxLen : Nat) (b : LogBatch) : Prop :=
  1 ≤ b.entries.length ∧ b.entries.length ≤ maxEntries ∧
    (maxLen < b.payloadLength → b.entries.length = 1)

/-- The inductive invariant of the logging context under `addEntry`. -/
def lcStateOK (maxEntries maxLen : Nat) (st : LCState) : Prop :=
  (∀ b ∈ st.closed, batchOK maxEntries maxLen b)
  ∧ st.current.entries.length ≤ maxEntries
  ∧ (2 ≤ st.current.entries.length → st.current.payloadLength ≤ maxLen)

lemma lcAddEntry_preserves (maxEntries maxLen : Nat) (hE : 1 ≤ maxEntries)
    (st : LCState) (e : LogEntry) (h : lcStateOK maxEntries maxLen st) :
    lcStateOK maxEntries maxLen (lcAddEntry maxEntries maxLen st e) := by
  obtain ⟨hc, hlen, hpay⟩ := h
  rw [lcAddEntry]
  by_cases hg : 0 < st.current.entries.length ∧
      (st.current.entries.length + 1 > maxEntries ∨
        st.current.payloadLength + e.textPayload.utf8ByteSize > maxLen)
  · rw [if_pos hg]
    refine ⟨?_, ?_, ?_⟩
    · intro b hb
      rcases List.mem_append.mp hb with hb | hb
      · exact hc b hb
      · have hbe : b = st.current := by simpa using hb
        subst hbe
        refine ⟨hg.1, hlen, ?_⟩
        intro hp
        by_cases h2 : 2 ≤ st.current.entries.length
        · exact absurd (hpay h2) (by omega)
        · omega
    · simp only [logBatchAdd, List.length_append, List.length_cons, List.length_nil]
      omega
    · intro h2
      simp only [logBatchAdd, List.length_append, List.length_cons, List.length_nil] at h2
      omega
  · rw [if_neg hg]
    push_neg at hg
    refine ⟨hc, ?_, ?_⟩
    · simp only [logBatchAdd, List.length_append, List.length_cons, List.length_nil]
      by_cases h0 : 0 < st.current.entries.length
      · have := (hg h0).1
        omega
      · omega
    · intro h2
      simp only [logBatchAdd, List.length_append, List.length_cons, List.length_nil] at h2 ⊢
      have h0 : 0 < st.current.entries.length := by omega
      have := (hg h0).2
      omega

lemma lcRun_ok (maxEntries maxLen : Nat) (hE : 1 ≤ maxEntries) (es : List LogEntry) :
    lcStateOK maxEntries maxLen (lcRun maxEntries maxLen es) := by
  rw [lcRun]
  have hInit : lcStateOK maxEntries maxLen lcInit := by
    refine ⟨?_, ?_, ?_⟩ <;> simp [lcInit, batchOK]
  suffices h : ∀ (l : List LogEntry) (st : LCState), lcStateOK maxEntries maxLen st →
      lcStateOK maxEntries maxLen (l.foldl (lcAddEntry maxEntries maxLen) st) by
    exact h es lcInit hInit
  intro l
  induction l with
  | nil => intro st h; simpa using h
  | cons e rest ih =>
    intro st h
    rw [List.foldl_cons]
    exact ih _ (lcAddEntry_preserves maxEntries maxLen hE st e h)

/-- C10: under any sequence of `loggingContext.addEntry` calls, every
batch ever closed (replaced as current by the size guard) holds at least 1
and at most `maxLogBatchEntries` entries, and a batch whose cumulative
payload exceeds `maxLogBatchLength` holds exactly one entry — the
oversized-singleton case, possible because `addEntry` never splits when
the current batch is empty: an entry appended to an empty current batch
lands in that same batch and nothing is closed, whatever its size. -/
theorem log_batch_invariants (maxLen : Nat) (es : List LogEntry) :
    (∀ b ∈ (lcRun maxLogBatchEntries maxLen es).closed,
      1 ≤ b.entries.length ∧ b.entries.length ≤ maxLogBatchEntries
        ∧ (maxLen < b.payloadLength → b.entries.length = 1))
    ∧ (∀ (st : LCState) (e : LogEntry), st.current.entries = [] →
        (lcAddEntry maxLogBatchEntries maxLen st e).closed = st.closed
        ∧ (lcAddEntry maxLogBatchEntries maxLen st e).current.entries = [e]) := by
  constructor
  · intro b hb
    exact (lcRun_ok maxLogBatchEntries maxLen (by decide) es).1 b hb
  · intro st e h0
    rw [lcAddEntry, if_neg (by simp [h0])]
    exact ⟨rfl, by simp [logBatchAdd, h0]⟩

/-- C10 witness: with a payload cap of 5 bytes, appending two 4-byte
entries closes a first singleton batch (within both caps), and a single
6-byte entry appended to the fresh context is stored in the still-open
current batch without closing anything. -/
theorem log_batch_invariants_witness :
    (1 ≤ (⟨[⟨"aaaa", "INFO", "t", ""⟩], 4⟩ : LogBatch).entries.length
      ∧ (⟨[⟨"aaaa", "INFO", "t", ""⟩], 4⟩ : LogBatch).entries.length ≤ maxLogBatchEntries
      ∧ (5 < (⟨[⟨"aaaa", "INFO", "t", ""⟩], 4⟩ : LogBatch).payloadLength
          → (⟨[⟨"aaaa", "INFO", "t", ""⟩], 4⟩ : LogBatch).entries.length = 1))
    ∧ ((lcAddEntry maxLogBatchEntries 5 lcInit ⟨"cccccc", "INFO", "t", ""⟩).closed
          = lcInit.closed
      ∧ (lcAddEntry maxLogBatchEntries 5 lcInit ⟨"cccccc", "INFO", "t", ""⟩).current.entries
          = [⟨"cccccc", "INFO", "t", ""⟩]) :=
  ⟨(log_batch_invariants 5 [⟨"aaaa", "INFO", "t", ""⟩, ⟨"bbbb", "INFO", "t", ""⟩]).1
      ⟨[⟨"aaaa", "INFO", "t", ""⟩], 4⟩ (by decide),
    (log_batch_invariants 5 []).2 lcInit ⟨"cccccc", "INFO", "t", ""⟩ rfl⟩
